import Mathlib

set_option maxHeartbeats 1000000
set_option maxRecDepth 8000

/-!
Shallow embedding of the temporal analysis generator in
src/temporal_analysis_complete.py (class TemporalAnalysisGenerator).

Python floats are modelled by exact rationals, numpy arrays by lists of
lists, and a raised Python exception by an Option value of none.
-/

section

attribute [local semireducible] Rat.mul Rat.add Rat.sub Rat.inv

/-- One BGR pixel of a frame (one entry of a 3-channel 8-bit buffer). -/
structure Pixel where
  b : ℕ
  g : ℕ
  r : ℕ
deriving DecidableEq, Repr

/-- A frame is a row-major pixel buffer, as a list of rows. -/
abbrev Frame := List (List Pixel)

/-- Width of a frame, read off the first row (an ndarray is rectangular, so the first row is representative). -/
def frameWidth (f : Frame) : ℕ := (f.headD []).length

/-- A well-formed pixel buffer of positive resolution: rectangular, with at least one row and one column. -/
def FrameWF (f : Frame) : Prop :=
  0 < f.length ∧ 0 < frameWidth f ∧ ∀ row ∈ f, row.length = frameWidth f

instance (f : Frame) : Decidable (FrameWF f) := by
  unfold FrameWF; infer_instance

/-- Configuration of TemporalAnalysisGenerator: the fields stored by init. -/
structure Config where
  frame_w : ℕ
  frame_h : ℕ
  num_regions : ℕ
  num_bins : ℕ
  temporal_length : ℕ
  brightness_scale : ℚ
deriving DecidableEq, Repr

/-- The init method of TemporalAnalysisGenerator: it stores the parameters and raises ValueError when num_regions is not 9; a temporal_length other than 64 only logs a warning. -/
def mkGenerator (frame_size : ℕ × ℕ) (num_regions num_bins temporal_length : ℕ)
    (brightness_scale : ℚ) : Except String Config :=
  if num_regions ≠ 9 then
    Except.error "num_regions must be 9 for 3x3 grid"
  else
    Except.ok
      { frame_w := frame_size.1, frame_h := frame_size.2, num_regions := num_regions,
        num_bins := num_bins, temporal_length := temporal_length,
        brightness_scale := brightness_scale }

/-- The configuration stored when constructing with all default arguments: frame_size (1920, 1080), num_regions 9, num_bins 32, temporal_length 64, brightness_scale 6.0. -/
def defaultConfig : Config :=
  { frame_w := 1920, frame_h := 1080, num_regions := 9, num_bins := 32,
    temporal_length := 64, brightness_scale := 6 }

/-- Construction of the generator with all default arguments. -/
def defaultGenerator : Except String Config := mkGenerator (1920, 1080) 9 32 64 6

/-- One spatial region with bounds (x0, y0, x1, y1). -/
structure Region where
  x0 : ℕ
  y0 : ℕ
  x1 : ℕ
  y1 : ℕ
deriving DecidableEq, Repr

/-- define_overlapping_regions: a 3x3 grid of regions, each covering 40 percent of either frame dimension, with origins at 0, 30 and 60 percent and bounds clipped to the frame. The float expressions int(dim * 0.4), int(dim * 0.3), int(dim * 0.6) are modelled by exact floor division. The two nested loops always produce 9 regions, independently of num_regions. -/
def define_overlapping_regions (c : Config) : List Region :=
  let region_width := c.frame_w * 2 / 5
  let region_height := c.frame_h * 2 / 5
  let x_positions := [0, c.frame_w * 3 / 10, c.frame_w * 3 / 5]
  let y_positions := [0, c.frame_h * 3 / 10, c.frame_h * 3 / 5]
  (List.range 3).flatMap fun row =>
    (List.range 3).map fun col =>
      { x0 := x_positions.getD col 0, y0 := y_positions.getD row 0,
        x1 := min (x_positions.getD col 0 + region_width) c.frame_w,
        y1 := min (y_positions.getD row 0 + region_height) c.frame_h }

/-- cv2.resize of a frame to width w and height h. The claims proved in this file do not depend on the resampling kernel, so the default bilinear filter is modelled by sampling the source at the nearest grid position; only the output shape matters downstream. -/
def cvResize (f : Frame) (w h : ℕ) : Frame :=
  (List.range h).map fun y =>
    (List.range w).map fun x =>
      (f.getD (min (y * f.length / h) (f.length - 1)) []).getD
        (min (x * frameWidth f / w) (frameWidth f - 1)) ⟨0, 0, 0⟩

/-- The standardization step of process_frame_sequence: a frame whose shape already equals (frame_h, frame_w) passes through unchanged; any other frame is resized with cv2.resize, which raises when the source or the target area is empty. -/
def standardize (c : Config) (f : Frame) : Option Frame :=
  if f.length = c.frame_h ∧ frameWidth f = c.frame_w then some f
  else if f.length = 0 ∨ frameWidth f = 0 ∨ c.frame_h = 0 ∨ c.frame_w = 0 then none
  else some (cvResize f c.frame_w c.frame_h)

/-- Saturation channel of one pixel under cv2.cvtColor COLOR_BGR2HSV for 8-bit input: S = round(255 * (maxc - minc) / maxc), and 0 when maxc = 0. The fixed-point rounding used inside OpenCV is immaterial to the claims; only membership of S in [0, 255] is used. -/
def satOfPixel (p : Pixel) : ℕ :=
  let v := max p.b (max p.g p.r)
  let m := min p.b (min p.g p.r)
  if v = 0 then 0 else (2 * 255 * (v - m) + v) / (2 * v)

/-- numpy slicing frame[y0:y1, x0:x1] flattened to the list of pixels of the region. -/
def cropPixels (f : Frame) (r : Region) : List Pixel :=
  ((f.drop r.y0).take (r.y1 - r.y0)).flatMap fun row => (row.drop r.x0).take (r.x1 - r.x0)

/-- Histogram bin index of np.histogram with range (0, 1) applied to s / 255: floor(s * bins / 255), with s = 255 landing in the last bin. -/
def binIdx (bins s : ℕ) : ℕ := if s = 255 then bins - 1 else s * bins / 255

/-- compute_saturation_histogram: crop the region, take the HSV saturation channel scaled to [0, 1], bin it into num_bins equal buckets and divide by (sum + 1e-6). cv2.cvtColor raises on an empty region and np.histogram raises when bins is not positive; both are modelled as none. -/
def compute_saturation_histogram (c : Config) (f : Frame) (r : Region) : Option (List ℚ) :=
  let sats := (cropPixels f r).map satOfPixel
  if sats.isEmpty then none
  else if c.num_bins = 0 then none
  else
    let hist := (List.range c.num_bins).map fun i =>
      (sats.filter fun s => binIdx c.num_bins s == i).length
    some (hist.map fun n : ℕ => (n : ℚ) / ((hist.sum : ℚ) + 1 / 1000000))

/-- process_frame_sequence: standardize every frame, then build for each of the 9 regions the temporal list of its per-frame histograms. Any raised exception propagates as none. -/
def process_frame_sequence (c : Config) (frames : List Frame) :
    Option (List (List (List ℚ))) := do
  let std ← frames.mapM (standardize c)
  (define_overlapping_regions c).mapM fun r =>
    std.mapM fun f => compute_saturation_histogram c f r

/-- np.clip(x, 0, 255) followed by astype(np.uint8): clamp to [0, 255], then truncate toward zero. -/
def clipU8 (x : ℚ) : ℕ :=
  if x ≤ 0 then 0 else if (255 : ℚ) ≤ x then 255 else (Rat.floor x).toNat

/-- region_scaled = np.clip(region_data * brightness_scale * 255, 0, 255).astype(np.uint8). -/
def regionScaled (c : Config) (h : List (List ℚ)) : List (List ℕ) :=
  h.map fun row => row.map fun v => clipU8 (v * c.brightness_scale * 255)

/-- region_padded, the row-axis fix-up of create_3x3_temporal_grid: fewer than temporal_length rows are zero-padded at the end, keeping the column count of the data; more rows are truncated to the first temporal_length. There is no column-axis fix-up. -/
def regionPadded (c : Config) (h : List (List ℚ)) : List (List ℕ) :=
  let scaled := regionScaled c h
  if h.length < c.temporal_length then
    scaled ++ List.replicate (c.temporal_length - h.length)
      (List.replicate (h.headD []).length 0)
  else
    scaled.take c.temporal_length

/-- cv2.resize with INTER_NEAREST on a single-channel matrix: destination row y samples source row floor(y * srcRows / dh) and destination column x samples source column floor(x * srcCols / dw), both clamped to the source. -/
def resizeNNU8 (src : List (List ℕ)) (dw dh : ℕ) : List (List ℕ) :=
  (List.range dh).map fun y =>
    (List.range dw).map fun x =>
      (src.getD (min (y * src.length / dh) (src.length - 1)) []).getD
        (min (x * (src.headD []).length / dw) ((src.headD []).length - 1)) 0

/-- Per-region body of the loop in create_3x3_temporal_grid: stack the history with np.array (which raises on a ragged history, while an empty history makes the later shape[1] lookup raise), scale and clip, fix up the row count, and resize to 64x64 with nearest-neighbor interpolation. cv2.resize raises when its source matrix has no rows or no columns. -/
def processRegion (c : Config) (h : List (List ℚ)) : Option (List (List ℕ)) :=
  match h with
  | [] => none
  | first :: _ =>
    if h.all fun row => row.length = first.length then
      if first.length = 0 then none
      else if c.temporal_length = 0 then none
      else some (resizeNNU8 (regionPadded c h) 64 64)
    else none

/-- Overwrite of one output row from position x0 onward with the block row b, as in the numpy slice assignment row[x0 : x0 + len b] = b. -/
def setRow (row : List ℕ) (x0 : ℕ) (b : List ℕ) : List ℕ :=
  match row, x0, b with
  | [], _, _ => []
  | v :: t, x + 1, b => v :: setRow t x b
  | _ :: t, 0, w :: bs => w :: setRow t 0 bs
  | row, 0, [] => row

/-- numpy slice assignment output[y0 : y0 + blk.length, x0 : x0 + 64] = blk, row by row. -/
def setBlock (img : List (List ℕ)) (y0 x0 : ℕ) (blk : List (List ℕ)) : List (List ℕ) :=
  match img, y0, blk with
  | [], _, _ => []
  | row :: t, y + 1, blk => row :: setBlock t y x0 blk
  | row :: t, 0, b :: bs => setRow row x0 b :: setBlock t 0 x0 bs
  | img, 0, [] => img

/-- The 192x192 zero canvas np.zeros((192, 192), dtype=np.uint8). -/
def zeroImage : List (List ℕ) := List.replicate 192 (List.replicate 192 0)

/-- Loop of create_3x3_temporal_grid over the enumerated region histories: region i is written to rows i / 3 * 64 .. and columns i % 3 * 64 ... A failing region aborts the whole call, since the loop body has no try/except; an index of 9 or more would address an empty output slice and the assignment of a 64x64 block to it would raise. -/
def renderGrid (c : Config) : ℕ → List (List (List ℚ)) → List (List ℕ) → Option (List (List ℕ))
  | _, [], img => some img
  | i, h :: rest, img =>
    if i < 9 then
      match processRegion c h with
      | none => none
      | some blk => renderGrid c (i + 1) rest (setBlock img (i / 3 * 64) (i % 3 * 64) blk)
    else none

/-- create_3x3_temporal_grid: render all region histories onto the zero canvas. -/
def create_3x3_temporal_grid (c : Config) (hs : List (List (List ℚ))) :
    Option (List (List ℕ)) :=
  renderGrid c 0 hs zeroImage

/-- generate_from_frames: process the frames and render the grid. The surrounding try block only logs and re-raises, so exceptions propagate unchanged. -/
def generate_from_frames (c : Config) (frames : List Frame) : Option (List (List ℕ)) :=
  (process_frame_sequence c frames).bind (create_3x3_temporal_grid c)

/-- Pixel accessor for images and blocks, with default 0 outside the bounds. -/
def pix (img : List (List ℕ)) (y x : ℕ) : ℕ := (img.getD y []).getD x 0

/-- Multiplication of every raw histogram value of one region history by the constant a. -/
def scaleHist (a : ℚ) (h : List (List ℚ)) : List (List ℚ) :=
  h.map fun row => row.map fun v => a * v

/-- Modelled from the spec: the per-region rendering rule that claim C1 ascribes to the grid renderer (spec section 4.5, steps 1 to 4), written out for comparison with the implemented processRegion. An empty history is replaced by temporal_length zero vectors; negatives are clipped to 0; the whole matrix is min-max normalized (all-255 when uniform with positive maximum, all-0 when uniform otherwise, the mid-gray 128 fallback being unreachable over the rationals); values are scaled to [0, 255] and truncated; finally rows and columns are padded with zeros or truncated to exactly temporal_length by num_bins. -/
def specMinMaxBlock (c : Config) (h0 : List (List ℚ)) : List (List ℕ) :=
  let h := if h0.isEmpty then
      List.replicate c.temporal_length (List.replicate c.num_bins (0 : ℚ))
    else h0
  let m := h.map fun row => row.map fun v => max v 0
  let vals := m.flatten
  let lo := vals.foldr min (vals.headD 0)
  let hi := vals.foldr max (vals.headD 0)
  let norm :=
    if hi = lo then
      m.map fun row => row.map fun _ => if 0 < hi then (255 : ℕ) else 0
    else
      m.map fun row => row.map fun v => (Rat.floor ((v - lo) / (hi - lo) * 255)).toNat
  let rows :=
    if norm.length < c.temporal_length then
      norm ++ List.replicate (c.temporal_length - norm.length) []
    else norm.take c.temporal_length
  rows.map fun row =>
    if row.length < c.num_bins then row ++ List.replicate (c.num_bins - row.length) 0
    else row.take c.num_bins

/-- Total version of the standardization step, equal to standardize wherever the latter does not raise. -/
def stdFrame (c : Config) (f : Frame) : Frame :=
  if f.length = c.frame_h ∧ frameWidth f = c.frame_w then f
  else cvResize f c.frame_w c.frame_h

/-- The vector computed by compute_saturation_histogram when it does not raise. -/
def histValue (c : Config) (f : Frame) (r : Region) : List ℚ :=
  let sats := (cropPixels f r).map satOfPixel
  let hist := (List.range c.num_bins).map fun i =>
    (sats.filter fun s => binIdx c.num_bins s == i).length
  hist.map fun n : ℕ => (n : ℚ) / ((hist.sum : ℚ) + 1 / 1000000)

/-- A standardized-size frame (1080 rows by 1920 columns) of black pixels, used as a concrete test input. -/
def zeroFrameHD : Frame := List.replicate 1080 (List.replicate 1920 ⟨0, 0, 0⟩)

/-! ### Generic list helpers -/

theorem getD_range_map {α : Type} (f : ℕ → α) (d : α) {n i : ℕ} (h : i < n) :
    ((List.range n).map f).getD i d = f i := by
  rw [List.getD_eq_getElem?_getD,
    List.getElem?_eq_getElem (by simpa using h)]
  simp

theorem getD_map_of_lt {α β : Type} (f : α → β) (l : List α) (d : β) (d' : α) {i : ℕ}
    (h : i < l.length) : (l.map f).getD i d = f (l.getD i d') := by
  rw [List.getD_eq_getElem?_getD, List.getD_eq_getElem?_getD,
    List.getElem?_eq_getElem (by simpa using h), List.getElem?_eq_getElem h]
  simp

theorem getD_mem_or {α : Type} (l : List α) (i : ℕ) (d : α) :
    l.getD i d ∈ l ∨ l.getD i d = d := by
  rw [List.getD_eq_getElem?_getD]
  rcases h : l[i]? with _ | v
  · right; rfl
  · left
    obtain ⟨hlt, heq⟩ := List.getElem?_eq_some.1 h
    simpa [heq] using List.getElem_mem hlt

theorem getD_le_of_all {l : List ℕ} {m : ℕ} (hb : ∀ v ∈ l, v ≤ m) (j : ℕ) :
    l.getD j 0 ≤ m := by
  rcases getD_mem_or l j 0 with h | h
  · exact hb _ h
  · omega

theorem headD_length_eq {α : Type} {h : List (List α)} {k : ℕ} (hne : h ≠ [])
    (hk : ∀ row ∈ h, row.length = k) : (h.headD []).length = k := by
  cases h with
  | nil => exact absurd rfl hne
  | cons a t => exact hk a (List.mem_cons_self a t)

/-! ### Bounds for clipU8 -/

theorem clipU8_le (x : ℚ) : clipU8 x ≤ 255 := by
  unfold clipU8
  split
  · exact Nat.zero_le _
  · split
    · exact le_refl _
    · rename_i h1 h2
      have hx : x < 255 := lt_of_not_le h2
      have hf : ((Rat.floor x : ℤ) : ℚ) ≤ x := Int.floor_le x
      have h3 : ((Rat.floor x : ℤ) : ℚ) < 255 := lt_of_le_of_lt hf hx
      have h4 : (Rat.floor x : ℤ) < 255 := by exact_mod_cast h3
      omega

/-! ### Lemmas about resizeNNU8 -/

theorem resizeNNU8_length (src : List (List ℕ)) (dw dh : ℕ) :
    (resizeNNU8 src dw dh).length = dh := by
  simp [resizeNNU8]

theorem resizeNNU8_row_length {src : List (List ℕ)} {dw dh : ℕ} {row : List ℕ}
    (h : row ∈ resizeNNU8 src dw dh) : row.length = dw := by
  simp only [resizeNNU8, List.mem_map, List.mem_range] at h
  obtain ⟨y, _, rfl⟩ := h
  simp

theorem pix_resizeNNU8 (src : List (List ℕ)) {dw dh y x : ℕ} (hy : y < dh) (hx : x < dw) :
    pix (resizeNNU8 src dw dh) y x
      = (src.getD (min (y * src.length / dh) (src.length - 1)) []).getD
          (min (x * (src.headD []).length / dw) ((src.headD []).length - 1)) 0 := by
  unfold pix resizeNNU8
  rw [getD_range_map _ _ hy, getD_range_map _ _ hx]

theorem resizeNNU8_le {src : List (List ℕ)} (hb : ∀ row ∈ src, ∀ v ∈ row, v ≤ 255)
    {dw dh : ℕ} : ∀ row ∈ resizeNNU8 src dw dh, ∀ v ∈ row, v ≤ 255 := by
  intro row hrow v hv
  simp only [resizeNNU8, List.mem_map, List.mem_range] at hrow
  obtain ⟨y, _, rfl⟩ := hrow
  simp only [List.mem_map, List.mem_range] at hv
  obtain ⟨x, _, rfl⟩ := hv
  rcases getD_mem_or src (min (y * src.length / dh) (src.length - 1)) [] with hm | hm
  · exact getD_le_of_all (hb _ hm) _
  · rw [hm]
    simp

/-! ### Shape and content lemmas for the per-region renderer -/

theorem regionScaled_length (c : Config) (h : List (List ℚ)) :
    (regionScaled c h).length = h.length := by simp [regionScaled]

theorem regionScaled_mem {c : Config} {h : List (List ℚ)} {row : List ℕ}
    (hr : row ∈ regionScaled c h) : ∃ row₀ ∈ h, row = row₀.map
      (fun v => clipU8 (v * c.brightness_scale * 255)) ∧ row.length = row₀.length := by
  simp only [regionScaled, List.mem_map] at hr
  obtain ⟨row₀, hm, rfl⟩ := hr
  exact ⟨row₀, hm, rfl, by simp⟩

theorem regionPadded_length (c : Config) (h : List (List ℚ)) :
    (regionPadded c h).length = c.temporal_length := by
  unfold regionPadded
  split
  · rename_i hlt
    simp only [List.length_append, List.length_replicate, regionScaled_length]
    omega
  · rename_i hge
    simp only [List.length_take, regionScaled_length]
    omega

theorem regionPadded_row_length {c : Config} {h : List (List ℚ)} {k : ℕ}
    (hne : h ≠ []) (hk : ∀ row ∈ h, row.length = k) :
    ∀ row ∈ regionPadded c h, row.length = k := by
  intro row hr
  unfold regionPadded at hr
  split at hr
  · rcases List.mem_append.1 hr with hm | hm
    · obtain ⟨row₀, hm₀, _, hlen⟩ := regionScaled_mem hm
      rw [hlen]
      exact hk row₀ hm₀
    · have heq := List.eq_of_mem_replicate hm
      subst heq
      rw [List.length_replicate]
      exact headD_length_eq hne hk
  · have hm := List.take_subset _ _ hr
    obtain ⟨row₀, hm₀, _, hlen⟩ := regionScaled_mem hm
    rw [hlen]
    exact hk row₀ hm₀

theorem regionPadded_le (c : Config) (h : List (List ℚ)) :
    ∀ row ∈ regionPadded c h, ∀ v ∈ row, v ≤ 255 := by
  intro row hr v hv
  have hs : ∀ row ∈ regionScaled c h, ∀ v ∈ row, v ≤ 255 := by
    intro row hrs v hvs
    obtain ⟨row₀, _, rfl, _⟩ := regionScaled_mem hrs
    simp only [List.mem_map] at hvs
    obtain ⟨w, _, rfl⟩ := hvs
    exact clipU8_le _
  unfold regionPadded at hr
  split at hr
  · rcases List.mem_append.1 hr with hm | hm
    · exact hs row hm v hv
    · have heq := List.eq_of_mem_replicate hm
      subst heq
      have hv0 := List.eq_of_mem_replicate hv
      omega
  · exact hs row (List.take_subset _ _ hr) v hv

theorem processRegion_some (c : Config) (h : List (List ℚ)) (k : ℕ)
    (hne : h ≠ []) (hk : ∀ row ∈ h, row.length = k) (hk0 : k ≠ 0)
    (hT : c.temporal_length ≠ 0) :
    processRegion c h = some (resizeNNU8 (regionPadded c h) 64 64) := by
  cases h with
  | nil => exact absurd rfl hne
  | cons first t =>
    have hfirst : first.length = k := hk first (List.mem_cons_self first t)
    have hall : ((first :: t).all fun row => decide (row.length = first.length)) = true := by
      simp only [List.all_eq_true, decide_eq_true_eq]
      intro row hrow
      rw [hk row hrow, hfirst]
    simp only [processRegion]
    rw [if_pos hall, if_neg (by omega : ¬ first.length = 0), if_neg hT]

theorem processRegion_block_shape (c : Config) {h : List (List ℚ)} {blk : List (List ℕ)}
    (hp : processRegion c h = some blk) :
    blk.length = 64 ∧ (∀ row ∈ blk, row.length = 64) ∧
      ∀ row ∈ blk, ∀ v ∈ row, v ≤ 255 := by
  cases h with
  | nil => simp [processRegion] at hp
  | cons first t =>
    simp only [processRegion] at hp
    split at hp
    · split at hp
      · exact absurd hp (by simp)
      · split at hp
        · exact absurd hp (by simp)
        · rw [Option.some_inj] at hp
          subst hp
          exact ⟨resizeNNU8_length _ _ _, fun row hr => resizeNNU8_row_length hr,
            resizeNNU8_le (regionPadded_le c _)⟩
    · exact absurd hp (by simp)

/-! ### Indexing lemmas for setRow and setBlock -/

theorem setRow_length (row : List ℕ) (x0 : ℕ) (b : List ℕ) :
    (setRow row x0 b).length = row.length := by
  induction row generalizing x0 b with
  | nil => simp [setRow]
  | cons v t ih =>
    cases x0 with
    | succ x0' => simp [setRow, ih]
    | zero =>
      cases b with
      | nil => simp [setRow]
      | cons w bs => simp [setRow, ih]

theorem setRow_mem {row : List ℕ} {x0 : ℕ} {b : List ℕ} :
    ∀ v ∈ setRow row x0 b, v ∈ row ∨ v ∈ b := by
  induction row generalizing x0 b with
  | nil => simp [setRow]
  | cons v t ih =>
    cases x0 with
    | succ x0' =>
      intro w hw
      rw [setRow] at hw
      rcases List.mem_cons.1 hw with h | h
      · exact Or.inl (h ▸ List.mem_cons_self v t)
      · rcases ih w h with h' | h'
        · exact Or.inl (List.mem_cons_of_mem v h')
        · exact Or.inr h'
    | zero =>
      cases b with
      | nil =>
        intro w hw
        exact Or.inl hw
      | cons u bs =>
        intro w hw
        rw [setRow] at hw
        rcases List.mem_cons.1 hw with h | h
        · exact Or.inr (h ▸ List.mem_cons_self u bs)
        · rcases ih w h with h' | h'
          · exact Or.inl (List.mem_cons_of_mem v h')
          · exact Or.inr (List.mem_cons_of_mem u h')

theorem setRow_getD (row : List ℕ) (x0 : ℕ) (b : List ℕ) (x : ℕ) :
    (setRow row x0 b).getD x 0 =
      if x0 ≤ x ∧ x - x0 < b.length ∧ x < row.length then b.getD (x - x0) 0
      else row.getD x 0 := by
  induction row generalizing x0 b x with
  | nil => simp [setRow]
  | cons v t ih =>
    cases x0 with
    | succ x0' =>
      cases x with
      | zero => simp [setRow]
      | succ x' =>
        rw [setRow, List.getD_cons_succ, ih]
        by_cases h1 : x0' ≤ x' ∧ x' - x0' < b.length ∧ x' < t.length
        · rw [if_pos h1, if_pos (by simp only [List.length_cons]; omega),
            show x' + 1 - (x0' + 1) = x' - x0' from by omega]
        · rw [if_neg h1, if_neg (by simp only [List.length_cons]; omega),
            List.getD_cons_succ]
    | zero =>
      cases b with
      | nil => simp [setRow]
      | cons w bs =>
        cases x with
        | zero => simp [setRow]
        | succ x' =>
          rw [setRow, List.getD_cons_succ, ih]
          by_cases h1 : 0 ≤ x' ∧ x' - 0 < bs.length ∧ x' < t.length
          · rw [if_pos h1, if_pos (by simp only [List.length_cons]; omega)]
            simp only [Nat.sub_zero, List.getD_cons_succ]
          · rw [if_neg h1, if_neg (by simp only [List.length_cons]; omega),
              List.getD_cons_succ]

theorem setBlock_length (img : List (List ℕ)) (y0 x0 : ℕ) (blk : List (List ℕ)) :
    (setBlock img y0 x0 blk).length = img.length := by
  induction img generalizing y0 blk with
  | nil => simp [setBlock]
  | cons row t ih =>
    cases y0 with
    | succ y0' => simp [setBlock, ih]
    | zero =>
      cases blk with
      | nil => simp [setBlock]
      | cons brow bs => simp [setBlock, ih]

theorem setBlock_getD (img : List (List ℕ)) (y0 x0 : ℕ) (blk : List (List ℕ)) (y : ℕ) :
    (setBlock img y0 x0 blk).getD y [] =
      if y0 ≤ y ∧ y - y0 < blk.length ∧ y < img.length
      then setRow (img.getD y []) x0 (blk.getD (y - y0) [])
      else img.getD y [] := by
  induction img generalizing y0 blk y with
  | nil => simp [setBlock]
  | cons row t ih =>
    cases y0 with
    | succ y0' =>
      cases y with
      | zero => simp [setBlock]
      | succ y' =>
        rw [setBlock, List.getD_cons_succ, ih]
        by_cases h1 : y0' ≤ y' ∧ y' - y0' < blk.length ∧ y' < t.length
        · rw [if_pos h1, if_pos (by simp only [List.length_cons]; omega),
            show y' + 1 - (y0' + 1) = y' - y0' from by omega, List.getD_cons_succ]
        · rw [if_neg h1, if_neg (by simp only [List.length_cons]; omega),
            List.getD_cons_succ]
    | zero =>
      cases blk with
      | nil => simp [setBlock]
      | cons brow bs =>
        cases y with
        | zero => simp [setBlock]
        | succ y' =>
          rw [setBlock, List.getD_cons_succ, ih]
          by_cases h1 : 0 ≤ y' ∧ y' - 0 < bs.length ∧ y' < t.length
          · rw [if_pos h1, if_pos (by simp only [List.length_cons]; omega)]
            simp only [Nat.sub_zero, List.getD_cons_succ]
          · rw [if_neg h1, if_neg (by simp only [List.length_cons]; omega),
              List.getD_cons_succ]

theorem setBlock_mem {img : List (List ℕ)} {y0 x0 : ℕ} {blk : List (List ℕ)} :
    ∀ r ∈ setBlock img y0 x0 blk,
      r ∈ img ∨ ∃ r0 ∈ img, ∃ b ∈ blk, r = setRow r0 x0 b := by
  induction img generalizing y0 blk with
  | nil => simp [setBlock]
  | cons row t ih =>
    cases y0 with
    | succ y0' =>
      intro r hr
      rw [setBlock] at hr
      rcases List.mem_cons.1 hr with h | h
      · exact Or.inl (h ▸ List.mem_cons_self row t)
      · rcases ih r h with h' | ⟨r0, hr0, b, hb, rfl⟩
        · exact Or.inl (List.mem_cons_of_mem row h')
        · exact Or.inr ⟨r0, List.mem_cons_of_mem row hr0, b, hb, rfl⟩
    | zero =>
      cases blk with
      | nil =>
        intro r hr
        exact Or.inl hr
      | cons brow bs =>
        intro r hr
        rw [setBlock] at hr
        rcases List.mem_cons.1 hr with h | h
        · exact Or.inr ⟨row, List.mem_cons_self row t, brow,
            List.mem_cons_self brow bs, h⟩
        · rcases ih r h with h' | ⟨r0, hr0, b, hb, rfl⟩
          · exact Or.inl (List.mem_cons_of_mem row h')
          · exact Or.inr ⟨r0, List.mem_cons_of_mem row hr0, b,
              List.mem_cons_of_mem brow hb, rfl⟩

/-! ### Lemmas about renderGrid -/

theorem renderGrid_shape (c : Config) :
    ∀ (hs : List (List (List ℚ))) (i : ℕ) (img out : List (List ℕ)),
      img.length = 192 → (∀ row ∈ img, row.length = 192 ∧ ∀ v ∈ row, v ≤ 255) →
      renderGrid c i hs img = some out →
      out.length = 192 ∧ ∀ row ∈ out, row.length = 192 ∧ ∀ v ∈ row, v ≤ 255 := by
  intro hs
  induction hs with
  | nil =>
    intro i img out h1 h2 hr
    rw [renderGrid, Option.some_inj] at hr
    subst hr
    exact ⟨h1, h2⟩
  | cons h t ih =>
    intro i img out h1 h2 hr
    rw [renderGrid] at hr
    split at hr
    · cases hp : processRegion c h with
      | none =>
        rw [hp] at hr
        exact absurd hr (by simp)
      | some blk =>
        rw [hp] at hr
        obtain ⟨hbl, hbrow, hbv⟩ := processRegion_block_shape c hp
        refine ih _ _ out ?_ ?_ hr
        · rw [setBlock_length, h1]
        · intro row hrow
          rcases setBlock_mem row hrow with hm | ⟨r0, hr0, b, hb, rfl⟩
          · exact h2 row hm
          · refine ⟨?_, ?_⟩
            · rw [setRow_length]
              exact (h2 r0 hr0).1
            · intro v hv
              rcases setRow_mem v hv with h' | h'
              · exact (h2 r0 hr0).2 v h'
              · exact hbv b hb v h'
    · exact absurd hr (by simp)

theorem renderGrid_none (c : Config) :
    ∀ (hs : List (List (List ℚ))) (i : ℕ) (img : List (List ℕ)),
      i + hs.length ≤ 9 → (∃ h ∈ hs, processRegion c h = none) →
      renderGrid c i hs img = none := by
  intro hs
  induction hs with
  | nil =>
    intro i img _ hex
    simp at hex
  | cons h t ih =>
    intro i img hlen hex
    rw [renderGrid, if_pos (by simp only [List.length_cons] at hlen; omega)]
    cases hp : processRegion c h with
    | none => rfl
    | some blk =>
      obtain ⟨h', hm, hnone⟩ := hex
      rcases List.mem_cons.1 hm with heq | hmem
      · subst heq
        rw [hp] at hnone
        exact absurd hnone (by simp)
      · exact ih _ _ (by simp only [List.length_cons] at hlen; omega) ⟨h', hmem, hnone⟩

theorem renderGrid_congr (c : Config) :
    ∀ {hs hs' : List (List (List ℚ))},
      List.Forall₂ (fun a b => processRegion c a = processRegion c b) hs hs' →
      ∀ (i : ℕ) (img : List (List ℕ)), renderGrid c i hs img = renderGrid c i hs' img := by
  intro hs hs' hf
  induction hf with
  | nil =>
    intro i img
    rfl
  | cons hab hrest ih =>
    intro i img
    rw [renderGrid, renderGrid]
    split
    · rw [hab]
      cases processRegion c _ with
      | none => rfl
      | some blk => exact ih _ _
    · rfl

theorem renderGrid_some (c : Config) :
    ∀ (hs : List (List (List ℚ))) (i : ℕ) (img : List (List ℕ)),
      i + hs.length ≤ 9 → (∀ h ∈ hs, ∃ blk, processRegion c h = some blk) →
      ∃ out, renderGrid c i hs img = some out := by
  intro hs
  induction hs with
  | nil =>
    intro i img _ _
    exact ⟨img, rfl⟩
  | cons h t ih =>
    intro i img hlen hall
    rw [renderGrid, if_pos (by simp only [List.length_cons] at hlen; omega)]
    obtain ⟨blk, hblk⟩ := hall h (List.mem_cons_self h t)
    rw [hblk]
    exact ih _ _ (by simp only [List.length_cons] at hlen; omega)
      (fun h' hm => hall h' (List.mem_cons_of_mem h hm))

theorem zeroImage_shape : zeroImage.length = 192 ∧
    ∀ row ∈ zeroImage, row.length = 192 ∧ ∀ v ∈ row, v ≤ 255 := by
  refine ⟨by simp [zeroImage], ?_⟩
  intro row hrow
  have heq := List.eq_of_mem_replicate hrow
  subst heq
  refine ⟨by simp, ?_⟩
  intro v hv
  have hv0 := List.eq_of_mem_replicate hv
  omega

/-! ### Helpers for mapM over Option -/

theorem mapM_eq_map_of_some {α β : Type} (F : α → Option β) (g : α → β) :
    ∀ l : List α, (∀ a ∈ l, F a = some (g a)) → l.mapM F = some (l.map g) := by
  intro l
  induction l with
  | nil =>
    intro _
    rfl
  | cons a t ih =>
    intro hall
    rw [List.mapM_cons, hall a (List.mem_cons_self a t),
      ih fun b hb => hall b (List.mem_cons_of_mem a hb)]
    rfl

/-! ### The happy path of the default generator -/

theorem cvResize_shape (f : Frame) (w h : ℕ) :
    (cvResize f w h).length = h ∧ ∀ row ∈ cvResize f w h, row.length = w := by
  refine ⟨by simp [cvResize], ?_⟩
  intro row hrow
  simp only [cvResize, List.mem_map, List.mem_range] at hrow
  obtain ⟨y, _, rfl⟩ := hrow
  simp

theorem standardize_default {f : Frame} (hwf : FrameWF f) :
    standardize defaultConfig f = some (stdFrame defaultConfig f) ∧
      (stdFrame defaultConfig f).length = 1080 ∧
      ∀ row ∈ stdFrame defaultConfig f, row.length = 1920 := by
  obtain ⟨hh, hw, hrect⟩ := hwf
  unfold standardize stdFrame
  by_cases hs : f.length = defaultConfig.frame_h ∧ frameWidth f = defaultConfig.frame_w
  · rw [if_pos hs, if_pos hs]
    refine ⟨rfl, hs.1, ?_⟩
    intro row hrow
    rw [hrect row hrow]
    exact hs.2
  · have hB : ¬ (f.length = 0 ∨ frameWidth f = 0 ∨ defaultConfig.frame_h = 0 ∨
        defaultConfig.frame_w = 0) := by
      push_neg
      exact ⟨by omega, by omega, by decide, by decide⟩
    rw [if_neg hs, if_neg hs, if_neg hB]
    obtain ⟨h1, h2⟩ := cvResize_shape f defaultConfig.frame_w defaultConfig.frame_h
    exact ⟨rfl, h1, h2⟩

theorem cropPixels_ne_nil {g : Frame} {H W : ℕ} (hlen : g.length = H)
    (hrect : ∀ row ∈ g, row.length = W) {r : Region}
    (hy : r.y0 < r.y1) (hy1 : r.y1 ≤ H) (hx : r.x0 < r.x1) (hx1 : r.x1 ≤ W) :
    cropPixels g r ≠ [] := by
  unfold cropPixels
  intro hcon
  have hrows : (g.drop r.y0).take (r.y1 - r.y0) ≠ [] := by
    apply List.ne_nil_of_length_pos
    rw [List.length_take, List.length_drop, hlen]
    omega
  obtain ⟨row0, hrow0⟩ := List.exists_mem_of_ne_nil _ hrows
  have hrow0g : row0 ∈ g := List.drop_subset _ _ (List.take_subset _ _ hrow0)
  have hrl : row0.length = W := hrect row0 hrow0g
  have hcrop : (row0.drop r.x0).take (r.x1 - r.x0) ≠ [] := by
    apply List.ne_nil_of_length_pos
    rw [List.length_take, List.length_drop, hrl]
    omega
  obtain ⟨p, hp⟩ := List.exists_mem_of_ne_nil _ hcrop
  have hmem : p ∈ ((g.drop r.y0).take (r.y1 - r.y0)).flatMap
      fun row => (row.drop r.x0).take (r.x1 - r.x0) :=
    List.mem_flatMap.2 ⟨row0, hrow0, hp⟩
  rw [hcon] at hmem
  exact absurd hmem (List.not_mem_nil p)

theorem histValue_length (c : Config) (f : Frame) (r : Region) :
    (histValue c f r).length = c.num_bins := by
  unfold histValue
  rw [List.length_map, List.length_map, List.length_range]

theorem compute_hist_some {c : Config} {f : Frame} {r : Region}
    (hne : cropPixels f r ≠ []) (hb : c.num_bins ≠ 0) :
    compute_saturation_histogram c f r = some (histValue c f r) := by
  have h1 : ¬ ((cropPixels f r).map satOfPixel).isEmpty = true := by
    rw [List.isEmpty_iff]
    intro hcon
    exact hne (List.map_eq_nil_iff.1 hcon)
  simp only [compute_saturation_histogram, histValue]
  rw [if_neg h1, if_neg hb]

theorem default_regions_bounds :
    ∀ r ∈ define_overlapping_regions defaultConfig,
      r.y0 < r.y1 ∧ r.y1 ≤ 1080 ∧ r.x0 < r.x1 ∧ r.x1 ≤ 1920 := by decide

theorem default_regions_length :
    (define_overlapping_regions defaultConfig).length = 9 := by decide

theorem process_frames_default (frames : List Frame) (hwf : ∀ f ∈ frames, FrameWF f) :
    process_frame_sequence defaultConfig frames
      = some ((define_overlapping_regions defaultConfig).map fun r =>
          frames.map fun f => histValue defaultConfig (stdFrame defaultConfig f) r) := by
  have hstd : frames.mapM (standardize defaultConfig)
      = some (frames.map (stdFrame defaultConfig)) :=
    mapM_eq_map_of_some _ _ frames fun f hf => (standardize_default (hwf f hf)).1
  have hinner : ∀ r ∈ define_overlapping_regions defaultConfig,
      (frames.map (stdFrame defaultConfig)).mapM
          (fun f => compute_saturation_histogram defaultConfig f r)
        = some (frames.map fun f => histValue defaultConfig (stdFrame defaultConfig f) r) := by
    intro r hr
    obtain ⟨hb1, hb2, hb3, hb4⟩ := default_regions_bounds r hr
    have hall : ∀ g ∈ frames.map (stdFrame defaultConfig),
        compute_saturation_histogram defaultConfig g r
          = some (histValue defaultConfig g r) := by
      intro g hg
      obtain ⟨f, hf, rfl⟩ := List.mem_map.1 hg
      obtain ⟨_, hlen, hrect⟩ := standardize_default (hwf f hf)
      exact compute_hist_some (cropPixels_ne_nil hlen hrect hb1 hb2 hb3 hb4) (by decide)
    rw [mapM_eq_map_of_some _ (fun g => histValue defaultConfig g r) _ hall, List.map_map]
    rfl
  have houter := mapM_eq_map_of_some
    (fun r => (frames.map (stdFrame defaultConfig)).mapM
        fun f => compute_saturation_histogram defaultConfig f r)
    (fun r => frames.map fun f => histValue defaultConfig (stdFrame defaultConfig f) r)
    (define_overlapping_regions defaultConfig) hinner
  unfold process_frame_sequence
  rw [hstd]
  exact houter

theorem generate_default_some (frames : List Frame) (hne : frames ≠ [])
    (hwf : ∀ f ∈ frames, FrameWF f) :
    ∃ img, generate_from_frames defaultConfig frames = some img ∧
      img.length = 192 ∧ ∀ row ∈ img, row.length = 192 ∧ ∀ v ∈ row, v ≤ 255 := by
  rw [generate_from_frames, process_frames_default frames hwf, Option.some_bind]
  have hall : ∀ h ∈ (define_overlapping_regions defaultConfig).map fun r =>
      frames.map fun f => histValue defaultConfig (stdFrame defaultConfig f) r,
      ∃ blk, processRegion defaultConfig h = some blk := by
    intro h hm
    obtain ⟨r, hr, rfl⟩ := List.mem_map.1 hm
    refine ⟨_, processRegion_some defaultConfig _ defaultConfig.num_bins
      (fun hnil => hne (List.map_eq_nil_iff.1 hnil)) ?_ (by decide) (by decide)⟩
    intro row hrow
    obtain ⟨f, hf, rfl⟩ := List.mem_map.1 hrow
    exact histValue_length defaultConfig (stdFrame defaultConfig f) r
  have hlen9 : ((define_overlapping_regions defaultConfig).map fun r =>
      frames.map fun f => histValue defaultConfig (stdFrame defaultConfig f) r).length = 9 := by
    rw [List.length_map]
    exact default_regions_length
  obtain ⟨out, hout⟩ := renderGrid_some defaultConfig _ 0 zeroImage (by omega) hall
  obtain ⟨ho1, ho2⟩ := renderGrid_shape defaultConfig _ 0 zeroImage out
    zeroImage_shape.1 zeroImage_shape.2 hout
  exact ⟨out, hout, ho1, ho2⟩

/-! ### Pixel-level lemmas for the rendered blocks -/

theorem getD_mem_of_lt {α : Type} {l : List α} {i : ℕ} (h : i < l.length) (d : α) :
    l.getD i d ∈ l := by
  rw [List.getD_eq_getElem?_getD, List.getElem?_eq_getElem h]
  simp

theorem zeroImage_pix (y x : ℕ) : pix zeroImage y x = 0 := by
  unfold pix zeroImage
  rcases getD_mem_or (List.replicate 192 (List.replicate 192 0)) y [] with hm | hm
  · rw [List.eq_of_mem_replicate hm]
    rcases getD_mem_or (List.replicate 192 0) x 0 with hv | hv
    · exact List.eq_of_mem_replicate hv
    · exact hv
  · rw [hm]
    rfl

theorem pix_oob {img : List (List ℕ)} {y : ℕ} (h : img.length ≤ y) (x : ℕ) :
    pix img y x = 0 := by
  unfold pix
  rw [List.getD_eq_getElem?_getD (l := img), List.getElem?_eq_none h]
  rfl

/-- C1 (amended): for the default generator, a rendered 64x64 region block is NOT produced by min-max normalization; instead, for a full 64-row history of 32-bin vectors, the block pixel at (y, x) equals clip(value[y][x / 2] * brightness_scale * 255, 0, 255) truncated to an 8-bit integer - a fixed pointwise brightness map of the raw value (columns being doubled by the nearest-neighbor upscale from 32 data columns). -/
theorem C1_theorem (h : List (List ℚ)) (y x : ℕ)
    (hlen : h.length = 64) (hrows : ∀ row ∈ h, row.length = 32)
    (hy : y < 64) (hx : x < 64) :
    (processRegion defaultConfig h).map (fun b => pix b y x)
      = some (clipU8 ((h.getD y []).getD (x / 2) 0 * 6 * 255)) := by
  have hne : h ≠ [] := by
    intro hcon
    rw [hcon] at hlen
    simp at hlen
  have hT64 : defaultConfig.temporal_length = 64 := rfl
  rw [processRegion_some defaultConfig h 32 hne hrows (by omega) (by decide),
    Option.map_some']
  congr 1
  have hpl : (regionPadded defaultConfig h).length = 64 := regionPadded_length _ _
  have hprows := regionPadded_row_length (c := defaultConfig) hne hrows
  have hpne : regionPadded defaultConfig h ≠ [] := by
    apply List.ne_nil_of_length_pos
    omega
  have hph : ((regionPadded defaultConfig h).headD []).length = 32 :=
    headD_length_eq hpne hprows
  rw [pix_resizeNNU8 _ hy hx, hpl, hph,
    show min (y * 64 / 64) (64 - 1) = y from by omega,
    show min (x * 32 / 64) (32 - 1) = x / 2 from by omega]
  have hpad : regionPadded defaultConfig h = regionScaled defaultConfig h := by
    unfold regionPadded
    rw [if_neg (by omega)]
    apply List.take_of_length_le
    rw [regionScaled_length]
    omega
  rw [hpad]
  have hyh : y < h.length := by omega
  unfold regionScaled
  rw [getD_map_of_lt _ h [] [] hyh]
  have hrowlen : (h.getD y []).length = 32 := hrows _ (getD_mem_of_lt hyh [])
  rw [getD_map_of_lt _ (h.getD y []) 0 0 (by omega)]
  rfl

theorem processRegion_take (c : Config) (h : List (List ℚ)) (k : ℕ)
    (hk : ∀ row ∈ h, row.length = k) (hk0 : k ≠ 0) (hT : c.temporal_length ≠ 0)
    (hlen : c.temporal_length < h.length) :
    processRegion c (h.take c.temporal_length) = processRegion c h := by
  have hne : h ≠ [] := by
    apply List.ne_nil_of_length_pos
    omega
  have htne : h.take c.temporal_length ≠ [] := by
    apply List.ne_nil_of_length_pos
    rw [List.length_take]
    omega
  have htk : ∀ row ∈ h.take c.temporal_length, row.length = k :=
    fun row hm => hk row (List.take_subset _ _ hm)
  rw [processRegion_some c h k hne hk hk0 hT,
    processRegion_some c _ k htne htk hk0 hT]
  have hpad : regionPadded c (h.take c.temporal_length) = regionPadded c h := by
    unfold regionPadded
    rw [if_neg (by rw [List.length_take]; omega), if_neg (by omega)]
    unfold regionScaled
    rw [List.map_take, List.take_take, min_self]
  rw [hpad]

theorem block_halfcol_default {h : List (List ℚ)} (hne : h ≠ [])
    (hrows : ∀ row ∈ h, row.length = 32) {blk : List (List ℕ)}
    (hp : processRegion defaultConfig h = some blk) :
    ∀ y j, 2 * j + 1 < 64 → pix blk y (2 * j + 1) = pix blk y (2 * j) := by
  rw [processRegion_some defaultConfig h 32 hne hrows (by omega) (by decide),
    Option.some_inj] at hp
  intro y j hj
  by_cases hy : y < 64
  · subst hp
    rw [pix_resizeNNU8 _ hy (by omega), pix_resizeNNU8 _ hy (by omega)]
    have hpl : (regionPadded defaultConfig h).length = 64 := regionPadded_length _ _
    have hpne : regionPadded defaultConfig h ≠ [] := by
      apply List.ne_nil_of_length_pos
      omega
    have hph : ((regionPadded defaultConfig h).headD []).length = 32 :=
      headD_length_eq hpne (regionPadded_row_length (c := defaultConfig) hne hrows)
    rw [hph, show min ((2 * j + 1) * 32 / 64) (32 - 1) = min ((2 * j) * 32 / 64) (32 - 1)
      from by omega]
  · subst hp
    have hl : (resizeNNU8 (regionPadded defaultConfig h) 64 64).length = 64 :=
      resizeNNU8_length _ _ _
    rw [pix_oob (by omega) _, pix_oob (by omega) _]

theorem setBlock_halfcol {img : List (List ℕ)} {blk : List (List ℕ)} {y0 cc : ℕ}
    (himg : ∀ row ∈ img, row.length = 192)
    (hq : ∀ y J, pix img y (2 * J + 1) = pix img y (2 * J))
    (_hbl : blk.length = 64) (hbrows : ∀ row ∈ blk, row.length = 64)
    (hblk : ∀ y j, 2 * j + 1 < 64 → pix blk y (2 * j + 1) = pix blk y (2 * j))
    (_hcc : cc ≤ 2) :
    ∀ y J, pix (setBlock img y0 (cc * 64) blk) y (2 * J + 1)
      = pix (setBlock img y0 (cc * 64) blk) y (2 * J) := by
  intro y J
  unfold pix
  rw [setBlock_getD]
  by_cases hycond : y0 ≤ y ∧ y - y0 < blk.length ∧ y < img.length
  · rw [if_pos hycond, setRow_getD, setRow_getD]
    have hrlen : (img.getD y []).length = 192 := himg _ (getD_mem_of_lt hycond.2.2 [])
    have hblen : (blk.getD (y - y0) []).length = 64 :=
      hbrows _ (getD_mem_of_lt (show y - y0 < blk.length from hycond.2.1) [])
    simp only [hrlen, hblen]
    by_cases hin : cc * 64 ≤ 2 * J ∧ 2 * J - cc * 64 < 64 ∧ 2 * J < 192
    · rw [if_pos hin, if_pos (by omega)]
      have hb := hblk (y - y0) (J - cc * 32) (by omega)
      unfold pix at hb
      rw [show 2 * J + 1 - cc * 64 = 2 * (J - cc * 32) + 1 from by omega,
        show 2 * J - cc * 64 = 2 * (J - cc * 32) from by omega]
      exact hb
    · rw [if_neg hin, if_neg (by omega)]
      have hqy := hq y J
      unfold pix at hqy
      exact hqy
  · rw [if_neg hycond]
    have hqy := hq y J
    unfold pix at hqy
    exact hqy

theorem renderGrid_halfcol :
    ∀ (hs : List (List (List ℚ))),
      (∀ h ∈ hs, h ≠ [] ∧ ∀ row ∈ h, row.length = 32) →
      ∀ (i : ℕ) (img out : List (List ℕ)),
        img.length = 192 → (∀ row ∈ img, row.length = 192) →
        (∀ y J, pix img y (2 * J + 1) = pix img y (2 * J)) →
        renderGrid defaultConfig i hs img = some out →
        ∀ y J, pix out y (2 * J + 1) = pix out y (2 * J) := by
  intro hs
  induction hs with
  | nil =>
    intro _ i img out h1 h2 hq hr y J
    rw [renderGrid, Option.some_inj] at hr
    subst hr
    exact hq y J
  | cons h t ih =>
    intro hhs i img out h1 h2 hq hr y J
    rw [renderGrid] at hr
    split at hr
    · cases hp : processRegion defaultConfig h with
      | none =>
        rw [hp] at hr
        exact absurd hr (by simp)
      | some blk =>
        rw [hp] at hr
        obtain ⟨hbl, hbrows, _⟩ := processRegion_block_shape defaultConfig hp
        obtain ⟨hhne, hh32⟩ := hhs h (List.mem_cons_self h t)
        have hblk := block_halfcol_default hhne hh32 hp
        refine ih (fun h' hm => hhs h' (List.mem_cons_of_mem h hm)) (i + 1) _ out
          ?_ ?_ ?_ hr y J
        · rw [setBlock_length, h1]
        · intro row hrow
          rcases setBlock_mem row hrow with hm | ⟨r0, hr0, b, hb, rfl⟩
          · exact h2 row hm
          · rw [setRow_length]
            exact h2 r0 hr0
        · exact setBlock_halfcol h2 hq hbl hbrows hblk (by omega)
    · exact absurd hr (by simp)

/-! ### Claim C1: the per-region rendering rule -/

/-- C1 (counterexample): on the uniform positive history [[1/20]], the claimed min-max normalization demands an all-255 block (max = min > 0), but the implemented renderer produces 76 = trunc(0.05 * 6 * 255) at pixel (0, 0): the block is brightness-scaled, not min-max normalized. -/
theorem C1_counterexample :
    (processRegion defaultConfig [[1 / 20]]).map (fun b => pix b 0 0) = some 76 ∧
    pix (specMinMaxBlock defaultConfig [[1 / 20]]) 0 0 = 255 ∧
    (processRegion defaultConfig [[1 / 20]]).map (fun b => pix b 0 0)
      ≠ some (pix (specMinMaxBlock defaultConfig [[1 / 20]]) 0 0) := by
  decide

/-- C1 (witness): the amended block formula evaluated at the concrete uniform 64x32 history of value 1/20, at pixel (0, 1). -/
theorem C1_witness :
    (List.replicate 64 (List.replicate 32 ((1 : ℚ) / 20))).length = 64 ∧
    (∀ row ∈ List.replicate 64 (List.replicate 32 ((1 : ℚ) / 20)), row.length = 32) ∧
    (0 : ℕ) < 64 ∧ (1 : ℕ) < 64 ∧
    (processRegion defaultConfig
        (List.replicate 64 (List.replicate 32 ((1 : ℚ) / 20)))).map (fun b => pix b 0 1)
      = some (clipU8 (((List.replicate 64 (List.replicate 32 ((1 : ℚ) / 20))).getD 0
          []).getD (1 / 2) 0 * 6 * 255)) :=
  ⟨rfl, by decide, by decide, by decide,
    C1_theorem _ 0 1 rfl (by decide) (by decide) (by decide)⟩

/-! ### Claim C2: failure isolation across regions -/

/-- C2 (counterexample): with the first of 9 histories ragged (a wrong-length vector) and the other 8 well-formed, the grid call raises (returns none) instead of returning a complete image with one zeroed quadrant; the corrupted history alone fails while a good history alone succeeds. -/
theorem C2_counterexample :
    create_3x3_temporal_grid defaultConfig
        ([[1], [1, 2]] :: List.replicate 8 [[(1 : ℚ)]]) = none ∧
    processRegion defaultConfig [[1], [1, 2]] = none ∧
    processRegion defaultConfig [[(1 : ℚ)]] ≠ none := by
  decide

/-- C2 (amended): there is no per-region failure isolation in create_3x3_temporal_grid: if any of the (at most 9) region histories makes its per-region processing raise, the whole call raises and no image is returned. -/
theorem C2_theorem (c : Config) (hs : List (List (List ℚ)))
    (hlen : hs.length ≤ 9) (hex : ∃ h ∈ hs, processRegion c h = none) :
    create_3x3_temporal_grid c hs = none := by
  unfold create_3x3_temporal_grid
  exact renderGrid_none c hs 0 zeroImage (by omega) hex

/-- C2 (witness): the amended statement applied to the single empty history. -/
theorem C2_witness :
    ([([] : List (List ℚ))].length ≤ 9) ∧
    (∃ h ∈ [([] : List (List ℚ))], processRegion defaultConfig h = none) ∧
    create_3x3_temporal_grid defaultConfig [([] : List (List ℚ))] = none :=
  ⟨by decide, ⟨[], by simp, by decide⟩,
    C2_theorem defaultConfig _ (by decide) ⟨[], by simp, by decide⟩⟩

/-! ### Claim C3: output shape and range -/

/-- C3: for every list of 64 well-formed frames of any positive resolution, generate_from_frames returns an image of exactly 192x192 single-channel 8-bit pixels, every value lying in [0, 255]. -/
theorem C3_theorem (frames : List Frame) (hlen : frames.length = 64)
    (hwf : ∀ f ∈ frames, FrameWF f) :
    ∃ img, generate_from_frames defaultConfig frames = some img ∧
      img.length = 192 ∧ ∀ row ∈ img, row.length = 192 ∧ ∀ v ∈ row, v ≤ 255 := by
  refine generate_default_some frames ?_ hwf
  intro hcon
  rw [hcon] at hlen
  simp at hlen

/-- C3 (witness): the shape and range guarantee applied to 64 concrete 1x1 black frames. -/
theorem C3_witness :
    (List.replicate 64 ([[⟨0, 0, 0⟩]] : Frame)).length = 64 ∧
    (∀ f ∈ List.replicate 64 ([[⟨0, 0, 0⟩]] : Frame), FrameWF f) ∧
    ∃ img, generate_from_frames defaultConfig
        (List.replicate 64 ([[⟨0, 0, 0⟩]] : Frame)) = some img ∧
      img.length = 192 ∧ ∀ row ∈ img, row.length = 192 ∧ ∀ v ∈ row, v ≤ 255 :=
  ⟨rfl, by decide, C3_theorem _ rfl (by decide)⟩

/-! ### Claim C4: dimension fix-up of a region block -/

/-- C4 (counterexample): for the single-entry history [[1]], the row fix-up yields a 64x1 matrix - the column count is NOT padded to num_bins (which is 32, not 64) - and the block actually placed is the 64x64 nearest-neighbor resize of that matrix, so further resizing IS applied. -/
theorem C4_counterexample :
    (regionPadded defaultConfig [[(1 : ℚ)]]).length = 64 ∧
    ((regionPadded defaultConfig [[(1 : ℚ)]]).headD []).length = 1 ∧
    defaultConfig.num_bins = 32 ∧
    processRegion defaultConfig [[(1 : ℚ)]]
      = some (resizeNNU8 (regionPadded defaultConfig [[(1 : ℚ)]]) 64 64) ∧
    (processRegion defaultConfig [[(1 : ℚ)]]).map (fun b => (b.headD []).length)
      = some 64 := by
  decide

/-- C4 (amended): the fix-up acts on the row axis only: for a uniform nonempty history of k-length vectors the fixed-up matrix has shape (temporal_length, k) - no column padding or truncation to num_bins exists - and the placed block is its nearest-neighbor resize to 64x64. -/
theorem C4_theorem (c : Config) (h : List (List ℚ)) (k : ℕ)
    (hne : h ≠ []) (hk : ∀ row ∈ h, row.length = k) (hk0 : k ≠ 0)
    (hT : c.temporal_length ≠ 0) :
    (regionPadded c h).length = c.temporal_length ∧
    (∀ row ∈ regionPadded c h, row.length = k) ∧
    processRegion c h = some (resizeNNU8 (regionPadded c h) 64 64) :=
  ⟨regionPadded_length c h, regionPadded_row_length hne hk,
    processRegion_some c h k hne hk hk0 hT⟩

/-- C4 (witness): the amended fix-up shape statement at the concrete history [[1]]. -/
theorem C4_witness :
    (([[(1 : ℚ)]] : List (List ℚ)) ≠ []) ∧
    (∀ row ∈ ([[(1 : ℚ)]] : List (List ℚ)), row.length = 1) ∧
    ((1 : ℕ) ≠ 0) ∧ (defaultConfig.temporal_length ≠ 0) ∧
    ((regionPadded defaultConfig [[(1 : ℚ)]]).length = defaultConfig.temporal_length ∧
      (∀ row ∈ regionPadded defaultConfig [[(1 : ℚ)]], row.length = 1) ∧
      processRegion defaultConfig [[(1 : ℚ)]]
        = some (resizeNNU8 (regionPadded defaultConfig [[(1 : ℚ)]]) 64 64)) :=
  ⟨by decide, by decide, by decide, by decide,
    C4_theorem defaultConfig _ 1 (by decide) (by decide) (by decide) (by decide)⟩

/-! ### Claim C5: repair of malformed history entries -/

/-- C5 (counterexample): an empty history and a history with one wrong-length entry both make the per-region processing raise (none) instead of being repaired with zero vectors, and a grid built from empty histories raises as well. -/
theorem C5_counterexample :
    processRegion defaultConfig ([] : List (List ℚ)) = none ∧
    processRegion defaultConfig [[1, 2], [1]] = none ∧
    create_3x3_temporal_grid defaultConfig
      (List.replicate 9 ([] : List (List ℚ))) = none := by
  decide

/-- C5 (amended): there is no validate-and-repair step: an empty history, or a history containing an entry whose length differs from that of the first entry, always makes the per-region processing raise (return none), aborting the call. -/
theorem C5_theorem (c : Config) (hs : List (List ℚ))
    (hbad : hs = [] ∨ ∃ row ∈ hs, row.length ≠ (hs.headD []).length) :
    processRegion c hs = none := by
  cases hs with
  | nil => rfl
  | cons first t =>
    rcases hbad with hnil | ⟨row, hm, hlen⟩
    · exact absurd hnil (by simp)
    · simp only [processRegion]
      rw [if_neg]
      rw [List.all_eq_true]
      intro hall
      have h2 := hall row hm
      rw [decide_eq_true_eq] at h2
      exact hlen h2

/-- C5 (witness): the amended statement applied to the empty history. -/
theorem C5_witness :
    (([] : List (List ℚ)) = [] ∨
      ∃ row ∈ ([] : List (List ℚ)),
        row.length ≠ (([] : List (List ℚ)).headD []).length) ∧
    processRegion defaultConfig ([] : List (List ℚ)) = none :=
  ⟨Or.inl rfl, C5_theorem defaultConfig [] (Or.inl rfl)⟩

/-! ### Claim C6: scale invariance of the rendering -/

/-- C6 (counterexample): multiplying the history [[1/10]] by the positive constant 2 changes the rendered block: pixel (0, 0) moves from 153 = trunc(0.1 * 6 * 255) to 255 (clipped), so the rendering is not invariant under positive scaling. -/
theorem C6_counterexample :
    (0 : ℚ) < 2 ∧
    (processRegion defaultConfig [[1 / 10]]).map (fun b => pix b 0 0) = some 153 ∧
    (processRegion defaultConfig (scaleHist 2 [[1 / 10]])).map (fun b => pix b 0 0)
      = some 255 ∧
    processRegion defaultConfig (scaleHist 2 [[1 / 10]])
      ≠ processRegion defaultConfig [[1 / 10]] := by
  decide

/-- C6 (amended): the renderer applies the fixed map clip(value * brightness_scale * 255) pointwise, so scaling a history by a constant preserves the block exactly when the clipped scaled value agrees with the clipped original value at every entry (for example when both saturate); it is not preserved in general. -/
theorem C6_theorem (c : Config) (a : ℚ) (h : List (List ℚ)) (k : ℕ)
    (hne : h ≠ []) (hk : ∀ row ∈ h, row.length = k) (hk0 : k ≠ 0)
    (hT : c.temporal_length ≠ 0)
    (hinv : ∀ row ∈ h, ∀ v ∈ row, clipU8 (a * v * c.brightness_scale * 255)
      = clipU8 (v * c.brightness_scale * 255)) :
    processRegion c (scaleHist a h) = processRegion c h := by
  have hsne : scaleHist a h ≠ [] := by
    unfold scaleHist
    intro hcon
    exact hne (List.map_eq_nil_iff.1 hcon)
  have hsk : ∀ row ∈ scaleHist a h, row.length = k := by
    intro row hm
    obtain ⟨row₀, hm₀, rfl⟩ := List.mem_map.1 hm
    rw [List.length_map]
    exact hk row₀ hm₀
  rw [processRegion_some c _ k hsne hsk hk0 hT, processRegion_some c h k hne hk hk0 hT]
  have hscaled : regionScaled c (scaleHist a h) = regionScaled c h := by
    unfold regionScaled scaleHist
    rw [List.map_map]
    apply List.map_congr_left
    intro row hrow
    simp only [Function.comp_apply, List.map_map]
    apply List.map_congr_left
    intro v hv
    exact hinv row hrow v hv
  have hLen : (scaleHist a h).length = h.length := by
    unfold scaleHist
    rw [List.length_map]
  have hHead : ((scaleHist a h).headD []).length = k := headD_length_eq hsne hsk
  have hHead2 : (h.headD []).length = k := headD_length_eq hne hk
  have hpad : regionPadded c (scaleHist a h) = regionPadded c h := by
    unfold regionPadded
    rw [hscaled, hLen, hHead, hHead2]
  rw [hpad]

/-- C6 (witness): the amended invariance condition holds at the saturating history [[1]] with scale 2, and the blocks agree there. -/
theorem C6_witness :
    (([[(1 : ℚ)]] : List (List ℚ)) ≠ []) ∧
    (∀ row ∈ ([[(1 : ℚ)]] : List (List ℚ)), row.length = 1) ∧
    ((1 : ℕ) ≠ 0) ∧ (defaultConfig.temporal_length ≠ 0) ∧
    (∀ row ∈ ([[(1 : ℚ)]] : List (List ℚ)), ∀ v ∈ row,
      clipU8 (2 * v * defaultConfig.brightness_scale * 255)
        = clipU8 (v * defaultConfig.brightness_scale * 255)) ∧
    processRegion defaultConfig (scaleHist 2 [[(1 : ℚ)]])
      = processRegion defaultConfig [[(1 : ℚ)]] :=
  ⟨by decide, by decide, by decide, by decide, by decide,
    C6_theorem defaultConfig 2 _ 1 (by decide) (by decide) (by decide) (by decide)
      (by decide)⟩

/-! ### Claim C8: construction-time validation and defaults -/

/-- C8 (counterexample): constructing with all default arguments succeeds, but the stored number of histogram bins is 32, not 64 as the claim states. -/
theorem C8_counterexample :
    defaultGenerator = Except.ok defaultConfig ∧ defaultConfig.num_bins = 32 ∧
      ¬ defaultConfig.num_bins = 64 :=
  ⟨rfl, rfl, by decide⟩

/-- C8 (amended): construction fails if and only if num_regions is not 9, for every combination of the other parameters; constructing with all defaults succeeds and yields frame_size (1920, 1080), num_bins 32 and temporal_length 64. -/
theorem C8_theorem :
    (∀ (fs : ℕ × ℕ) (nr nb tl : ℕ) (bs : ℚ),
      (∃ cfg, mkGenerator fs nr nb tl bs = Except.ok cfg) ↔ nr = 9) ∧
    ∃ cfg, defaultGenerator = Except.ok cfg ∧ cfg.num_bins = 32 ∧
      cfg.frame_w = 1920 ∧ cfg.frame_h = 1080 ∧ cfg.temporal_length = 64 := by
  constructor
  · intro fs nr nb tl bs
    constructor
    · rintro ⟨cfg, hcfg⟩
      by_contra hne
      unfold mkGenerator at hcfg
      rw [if_pos hne] at hcfg
      exact absurd hcfg (by simp)
    · intro h9
      subst h9
      refine ⟨⟨fs.1, fs.2, 9, nb, tl, bs⟩, ?_⟩
      unfold mkGenerator
      rw [if_neg (by omega)]
  · exact ⟨defaultConfig, rfl, rfl, rfl, rfl, rfl⟩

/-- C8 (witness): construction succeeds at a concrete non-default parameter set with num_regions = 9. -/
theorem C8_witness :
    ∃ cfg, mkGenerator (640, 480) 9 16 10 2 = Except.ok cfg :=
  (C8_theorem.1 (640, 480) 9 16 10 2).mpr rfl

/-! ### Claim C9: clamping of long frame sequences -/

/-- C9: for the default generator, a frame sequence longer than temporal_length (64) produces exactly the same image as its prefix of the first temporal_length frames: later frames have no influence, because each region history is truncated to its first temporal_length rows. -/
theorem C9_theorem (frames : List Frame) (hwf : ∀ f ∈ frames, FrameWF f)
    (hlen : defaultConfig.temporal_length < frames.length) :
    generate_from_frames defaultConfig frames
      = generate_from_frames defaultConfig
          (frames.take defaultConfig.temporal_length) := by
  have hwf2 : ∀ f ∈ frames.take defaultConfig.temporal_length, FrameWF f :=
    fun f hf => hwf f (List.take_subset _ _ hf)
  rw [generate_from_frames, generate_from_frames,
    process_frames_default frames hwf, process_frames_default _ hwf2,
    Option.some_bind, Option.some_bind]
  unfold create_3x3_temporal_grid
  apply renderGrid_congr
  rw [List.forall₂_map_left_iff, List.forall₂_map_right_iff, List.forall₂_same]
  intro r _
  rw [List.map_take]
  refine (processRegion_take defaultConfig _ defaultConfig.num_bins ?_ (by decide)
    (by decide) ?_).symm
  · intro row hrow
    obtain ⟨f, hf, rfl⟩ := List.mem_map.1 hrow
    exact histValue_length defaultConfig (stdFrame defaultConfig f) r
  · rw [List.length_map]
    exact hlen

/-- C9 (witness): the clamping equation applied to 65 concrete 1x1 black frames. -/
theorem C9_witness :
    (∀ f ∈ List.replicate 65 ([[⟨0, 0, 0⟩]] : Frame), FrameWF f) ∧
    defaultConfig.temporal_length < (List.replicate 65 ([[⟨0, 0, 0⟩]] : Frame)).length ∧
    generate_from_frames defaultConfig (List.replicate 65 ([[⟨0, 0, 0⟩]] : Frame))
      = generate_from_frames defaultConfig
          ((List.replicate 65 ([[⟨0, 0, 0⟩]] : Frame)).take
            defaultConfig.temporal_length) :=
  ⟨by decide, by decide, C9_theorem _ (by decide) (by decide)⟩

/-! ### Claim C10: column doubling from the 32-bin nearest-neighbor upscale -/

/-- C10: with all-default construction num_bins is 32, so every rendered block is the nearest-neighbor upscale of a 64x32 matrix; consequently in every returned image, for every row, pixel column 2J + 1 equals pixel column 2J (the doubling holds inside each of the 9 blocks and the block boundaries are even). -/
theorem C10_theorem (frames : List Frame) (hne : frames ≠ [])
    (hwf : ∀ f ∈ frames, FrameWF f) :
    ∃ img, generate_from_frames defaultConfig frames = some img ∧
      ∀ y J, J < 96 → pix img y (2 * J + 1) = pix img y (2 * J) := by
  rw [generate_from_frames, process_frames_default frames hwf, Option.some_bind]
  unfold create_3x3_temporal_grid
  have hhs : ∀ h ∈ (define_overlapping_regions defaultConfig).map fun r =>
      frames.map fun f => histValue defaultConfig (stdFrame defaultConfig f) r,
      h ≠ [] ∧ ∀ row ∈ h, row.length = 32 := by
    intro h hm
    obtain ⟨r, hr, rfl⟩ := List.mem_map.1 hm
    refine ⟨fun hnil => hne (List.map_eq_nil_iff.1 hnil), ?_⟩
    intro row hrow
    obtain ⟨f, hf, rfl⟩ := List.mem_map.1 hrow
    exact histValue_length defaultConfig (stdFrame defaultConfig f) r
  have hall : ∀ h ∈ (define_overlapping_regions defaultConfig).map fun r =>
      frames.map fun f => histValue defaultConfig (stdFrame defaultConfig f) r,
      ∃ blk, processRegion defaultConfig h = some blk := by
    intro h hm
    obtain ⟨hne', h32⟩ := hhs h hm
    exact ⟨_, processRegion_some defaultConfig h 32 hne' h32 (by omega) (by decide)⟩
  have hlen9 : ((define_overlapping_regions defaultConfig).map fun r =>
      frames.map fun f => histValue defaultConfig (stdFrame defaultConfig f) r).length
        = 9 := by
    rw [List.length_map]
    exact default_regions_length
  obtain ⟨out, hout⟩ := renderGrid_some defaultConfig _ 0 zeroImage (by omega) hall
  refine ⟨out, hout, fun y J _ => ?_⟩
  exact renderGrid_halfcol _ hhs 0 zeroImage out zeroImage_shape.1
    (fun row hr => (zeroImage_shape.2 row hr).1)
    (fun y J => by rw [zeroImage_pix, zeroImage_pix]) hout y J

/-- C10 (witness): the column-doubling guarantee applied to a single concrete 1x1 black frame. -/
theorem C10_witness :
    (([([[⟨0, 0, 0⟩]] : Frame)] : List Frame) ≠ []) ∧
    (∀ f ∈ ([([[⟨0, 0, 0⟩]] : Frame)] : List Frame), FrameWF f) ∧
    ∃ img, generate_from_frames defaultConfig ([([[⟨0, 0, 0⟩]] : Frame)] : List Frame)
        = some img ∧
      ∀ y J, J < 96 → pix img y (2 * J + 1) = pix img y (2 * J) :=
  ⟨by decide, by decide, C10_theorem _ (by decide) (by decide)⟩

/-! ### Arithmetic lemmas for the saturation histogram -/

theorem satOfPixel_le (p : Pixel) : satOfPixel p ≤ 255 := by
  unfold satOfPixel
  dsimp only
  split
  · omega
  · rename_i hv
    have hm : min p.b (min p.g p.r) ≤ max p.b (max p.g p.r) :=
      le_trans (min_le_left _ _) (le_max_left _ _)
    have hlt : 2 * 255 * (max p.b (max p.g p.r) - min p.b (min p.g p.r))
        + max p.b (max p.g p.r) < 256 * (2 * max p.b (max p.g p.r)) := by omega
    have hdiv := (Nat.div_lt_iff_lt_mul
      (show 0 < 2 * max p.b (max p.g p.r) from by omega)).2 hlt
    exact Nat.lt_succ_iff.mp hdiv

theorem binIdx_lt {bins : ℕ} (hb : 0 < bins) {s : ℕ} (hs : s ≤ 255) :
    binIdx bins s < bins := by
  unfold binIdx
  split
  · omega
  · rename_i hne
    have h1 : s * bins ≤ 254 * bins := mul_le_mul_right' (by omega) bins
    have h3 : s * bins < bins * 255 := by
      rw [Nat.mul_comm bins 255]
      have h2 : 254 * bins < 255 * bins :=
        mul_lt_mul_of_pos_right (by omega) hb
      omega
    exact (Nat.div_lt_iff_lt_mul (show 0 < 255 from by omega)).2 h3

theorem sum_map_add_nat {α : Type} (l : List α) (f g : α → ℕ) :
    (l.map fun a => f a + g a).sum = (l.map f).sum + (l.map g).sum := by
  induction l with
  | nil => rfl
  | cons a t ih =>
    simp only [List.map_cons, List.sum_cons, ih]
    omega

theorem sum_indicator_range {k x : ℕ} (h : x < k) :
    ((List.range k).map fun i => if x = i then (1 : ℕ) else 0).sum = 1 := by
  induction k with
  | zero => omega
  | succ k ih =>
    rw [List.range_succ, List.map_append, List.sum_append]
    by_cases hx : x = k
    · have hz : ((List.range k).map fun i => if x = i then (1 : ℕ) else 0).sum = 0 := by
        apply List.sum_eq_zero
        intro v hv
        simp only [List.mem_map, List.mem_range] at hv
        obtain ⟨i, hi, rfl⟩ := hv
        rw [if_neg (by omega)]
      rw [hz]
      simp [hx]
    · rw [ih (by omega)]
      simp [hx]

theorem sum_bins_eq_length (k : ℕ) (l : List ℕ) (f : ℕ → ℕ)
    (hf : ∀ s ∈ l, f s < k) :
    ((List.range k).map fun i => (l.filter fun s => f s == i).length).sum
      = l.length := by
  induction l with
  | nil => simp
  | cons s t ih =>
    have hs : f s < k := hf s (List.mem_cons_self s t)
    have ht : ∀ a ∈ t, f a < k := fun a ha => hf a (List.mem_cons_of_mem s ha)
    have hmap : ((List.range k).map fun i => ((s :: t).filter fun a => f a == i).length)
        = (List.range k).map fun i =>
            (if f s = i then 1 else 0) + (t.filter fun a => f a == i).length := by
      apply List.map_congr_left
      intro i _
      rw [List.filter_cons]
      by_cases h : f s = i
      · rw [if_pos (by simp [h]), List.length_cons, if_pos h]
        omega
      · rw [if_neg (by simp [h]), if_neg h]
        omega
    rw [hmap, sum_map_add_nat, sum_indicator_range hs, ih ht, List.length_cons]
    omega

theorem sum_map_div_q (l : List ℕ) (d : ℚ) :
    (l.map fun n : ℕ => (n : ℚ) / d).sum = (l.sum : ℚ) / d := by
  induction l with
  | nil => simp
  | cons a t ih =>
    simp only [List.map_cons, List.sum_cons, ih]
    push_cast
    rw [add_div]

/-! ### Claim C7: the saturation histogram extractor -/

/-- C7 (counterexample): a zero-pixel (degenerate) region of a standardized-size frame does NOT yield an all-zero vector: the extractor raises (the HSV conversion rejects an empty input), modelled as none. -/
theorem C7_counterexample :
    zeroFrameHD.length = 1080 ∧ frameWidth zeroFrameHD = 1920 ∧
    cropPixels zeroFrameHD ⟨0, 0, 0, 0⟩ = [] ∧
    compute_saturation_histogram defaultConfig zeroFrameHD ⟨0, 0, 0, 0⟩ = none :=
  ⟨rfl, rfl, rfl, rfl⟩

/-- C7 (amended): for positive num_bins and a region containing at least one pixel, the extractor returns num_bins non-negative values equal to the raw bin counts divided by (sum + 1e-6); the vector sums to N / (N + 1e-6) for N the pixel count, which lies strictly between 1 - 1e-6 and 1. A zero-pixel region raises an error instead of returning an all-zero vector. -/
theorem C7_theorem (c : Config) (f : Frame) (r : Region)
    (hb : 0 < c.num_bins) (hne : cropPixels f r ≠ []) :
    ∃ v, compute_saturation_histogram c f r = some v ∧
      v.length = c.num_bins ∧ (∀ q ∈ v, 0 ≤ q) ∧
      v.sum = ((cropPixels f r).length : ℚ)
        / (((cropPixels f r).length : ℚ) + 1 / 1000000) ∧
      1 - 1 / 1000000 < v.sum ∧ v.sum < 1 := by
  have hsats : ∀ s ∈ (cropPixels f r).map satOfPixel,
      binIdx c.num_bins s < c.num_bins := by
    intro s hs
    obtain ⟨p, _, rfl⟩ := List.mem_map.1 hs
    exact binIdx_lt hb (satOfPixel_le p)
  have hsum : ((List.range c.num_bins).map fun i =>
      (((cropPixels f r).map satOfPixel).filter fun s =>
        binIdx c.num_bins s == i).length).sum = (cropPixels f r).length := by
    rw [sum_bins_eq_length c.num_bins _ _ hsats, List.length_map]
  have hN : (1 : ℚ) ≤ ((cropPixels f r).length : ℚ) := by
    have h1 : 1 ≤ (cropPixels f r).length := by
      rcases Nat.eq_zero_or_pos (cropPixels f r).length with h0 | h0
      · exact absurd (List.length_eq_zero.1 h0) hne
      · omega
    exact_mod_cast h1
  have hvsum : (histValue c f r).sum
      = ((cropPixels f r).length : ℚ)
        / (((cropPixels f r).length : ℚ) + 1 / 1000000) := by
    simp only [histValue]
    rw [sum_map_div_q, hsum]
  refine ⟨histValue c f r, compute_hist_some hne (by omega),
    histValue_length c f r, ?_, hvsum, ?_, ?_⟩
  · intro q hq
    simp only [histValue, List.mem_map] at hq
    obtain ⟨n, _, rfl⟩ := hq
    positivity
  · rw [hvsum, lt_div_iff₀ (by positivity)]
    nlinarith [hN]
  · rw [hvsum, div_lt_one (by positivity)]
    linarith

/-- C7 (witness): the amended extractor guarantees applied to the single-pixel region of a concrete 1x1 frame. -/
theorem C7_witness :
    0 < defaultConfig.num_bins ∧
    cropPixels [[⟨0, 0, 0⟩]] ⟨0, 0, 1, 1⟩ ≠ [] ∧
    ∃ v, compute_saturation_histogram defaultConfig [[⟨0, 0, 0⟩]] ⟨0, 0, 1, 1⟩
        = some v ∧
      v.length = defaultConfig.num_bins ∧ (∀ q ∈ v, 0 ≤ q) ∧
      v.sum = ((cropPixels [[⟨0, 0, 0⟩]] ⟨0, 0, 1, 1⟩).length : ℚ)
        / (((cropPixels [[⟨0, 0, 0⟩]] ⟨0, 0, 1, 1⟩).length : ℚ) + 1 / 1000000) ∧
      1 - 1 / 1000000 < v.sum ∧ v.sum < 1 :=
  ⟨by decide, by decide, C7_theorem defaultConfig _ _ (by decide) (by decide)⟩

end
